import Mathlib

/-!
Shallow embedding of the Incremental Indexing & Vector Retrieval Engine:
`utils.chunk_text`, `vectorstore.VectorStore`, `llm_client.LLMClient` and
`indexer.Indexer`.  Python strings are `List Char`, SQLite tables are Lean
lists, IEEE doubles are real numbers, and the external collaborators
(filesystem, hashlib, numpy's RandomState, the Gemini API, the wall clock)
are the fields of an explicit `Env` record.
-/

/- ------------------------------------------------------------------ -/
/- utils.chunk_text                                                    -/
/- ------------------------------------------------------------------ -/

/-- Python slice index clamping for `s[i:j]`: an index `< 0` counts from the
end of the string (floored at 0) and a nonnegative index is capped at the
length. -/
def pyIndex (n : Nat) (i : Int) : Nat :=
  if i < 0 then ((n : Int) + i).toNat else min i.toNat n

/-- Python `s[i:j]` on a list of characters. -/
def pySlice (cs : List Char) (i j : Int) : List Char :=
  (cs.drop (pyIndex cs.length i)).take (pyIndex cs.length j - pyIndex cs.length i)

/-- The `while i < n` loop of `utils.chunk_text`, with explicit fuel: each
iteration appends `text[i:i+chunk_size]` and advances `i` by
`chunk_size - overlap` (an `Int`, because Python's step may be `≤ 0`).
`none` means the fuel ran out with the loop condition still true, i.e. the
Python loop would still be running after that many iterations. -/
def chunkLoop (cs : List Char) (size : Nat) (step : Int) :
    Nat → Int → List (List Char) → Option (List (List Char))
  | 0, i, acc => if i < (cs.length : Int) then none else some acc.reverse
  | fuel + 1, i, acc =>
      if i < (cs.length : Int) then
        chunkLoop cs size step fuel (i + step) (pySlice cs i (i + (size : Int)) :: acc)
      else some acc.reverse

/-- `utils.chunk_text`: empty text returns `[]`; otherwise run the sliding
window loop.  Fuel `length + 1` provably suffices whenever the step
`chunk_size - overlap` is positive (`chunk_text_eq_offsets`); when the step
is `≤ 0` the Python loop never terminates and every amount of fuel is
exhausted (`chunkLoop_stuck`), which this embedding reports as `none`. -/
def chunk_text (cs : List Char) (chunk_size overlap : Nat) :
    Option (List (List Char)) :=
  if cs = [] then some []
  else chunkLoop cs chunk_size ((chunk_size : Int) - (overlap : Int)) (cs.length + 1) 0 []

/-- The offsets visited by the chunk loop when the step is the positive
number `s1 + 1`: the arithmetic progression `i, i + (s1+1), …` while `< n`. -/
def offsetsFrom (n s1 : Nat) (i : Nat) : List Nat :=
  if _h : i < n then i :: offsetsFrom n s1 (i + s1 + 1) else []
termination_by n - i
decreasing_by omega

/-- The chunk-start offsets of `chunk_text text size overlap` for a
positive step `s = size - overlap`: `0, s, 2*s, …` while `< n`. -/
def chunkOffsets (n s : Nat) : List Nat := offsetsFrom n (s - 1) 0

/- ------------------------------------------------------------------ -/
/- vectorstore.VectorStore                                             -/
/- ------------------------------------------------------------------ -/

/-- A row of the `vectors` table (`VectorStore._init_db`).  The rowid `id`
and the JSON `metadata` column are omitted: no claim mentions them, and
`INSERT OR REPLACE` keyed on the UNIQUE `path` column determines the table
contents up to rowids.  The float32 blob written by `to_bytes` and read
back by `from_bytes` is modelled directly as the list of reals it encodes. -/
structure VectorRecord where
  path : String
  source : String
  content : List Char
  embedding : List ℝ
  timestamp : ℝ
  sha256 : String

/-- `INSERT OR REPLACE INTO vectors …` under the UNIQUE constraint on
`path`: the conflicting row, if any, is deleted and the new row is appended
(it receives a fresh rowid, so a full `SELECT` lists it last). -/
def upsertCore (r : VectorRecord) (db : List VectorRecord) : List VectorRecord :=
  db.filter (fun x => x.path != r.path) ++ [r]

/-- `VectorStore.delete_by_path`: `DELETE FROM vectors WHERE path=?`. -/
def deleteByPath (p : String) (db : List VectorRecord) : List VectorRecord :=
  db.filter (fun x => x.path != p)

/-- Python's falsy-coalescing `a or b` on an optional string argument
(`None` and the empty string are both falsy). -/
def pyOrStr : Option String → Option String → Option String
  | some s, b => if s = "" then b else some s
  | none, b => b

/-- Python's falsy-coalescing `a or b` on an optional text argument. -/
def pyOrChars : Option (List Char) → Option (List Char) → Option (List Char)
  | some s, b => if s = [] then b else some s
  | none, b => b

/-- `timestamp = kwargs.get("timestamp", None) or time_now()` inside
`VectorStore.upsert` (and the identical `ts or time.time()` in
`Indexer.process_path`): a missing timestamp and the falsy value `0.0`
are both replaced by the current wall-clock time. -/
noncomputable def tsCoerce (t? : Option ℝ) (now : ℝ) : ℝ :=
  match t? with
  | none => now
  | some t => if t = 0 then now else t

/-- `VectorStore.upsert` with its flexible argument handling:
`path = kwargs.get("path") or (args[0] if args else None)`,
`content = kwargs.get("content") or kwargs.get("summary") or ""`,
the timestamp coercion `tsCoerce`, `sha256`/`source` defaults, and the
`ValueError` (modelled as `.error ()`) when the coalesced path or the
vector is `None`.  `now` is the value `time_now()` would return. -/
noncomputable def VectorStore.upsert (now : ℝ) (db : List VectorRecord)
    (posPath pathKw : Option String) (contentKw summaryKw : Option (List Char))
    (vectorKw : Option (List ℝ)) (timestampKw : Option ℝ)
    (sha256Kw sourceKw : Option String) : Except Unit (List VectorRecord) :=
  match pyOrStr pathKw posPath, vectorKw with
  | some p, some v =>
      .ok (upsertCore
        { path := p
          source := sourceKw.getD "file"
          content := (pyOrChars contentKw (pyOrChars summaryKw none)).getD []
          embedding := v
          timestamp := tsCoerce timestampKw now
          sha256 := sha256Kw.getD "" } db)
  | _, _ => .error ()

/-- At most one row per path — the UNIQUE constraint on the `path` column. -/
def uniquePaths (db : List VectorRecord) : Prop :=
  db.Pairwise (fun a b => a.path ≠ b.path)

/- ------------------------------------------------------------------ -/
/- VectorStore.search                                                  -/
/- ------------------------------------------------------------------ -/

/-- The `1e-12` floor used in `VectorStore.search`. -/
noncomputable def eps : ℝ := 1 / 10 ^ 12

/-- One entry of `mat @ q`, i.e. `np.dot` of a stored row with the query.
`zipWith` mirrors numpy's elementwise product (all stored rows and the
query have the same length in practice). -/
noncomputable def dotp (a b : List ℝ) : ℝ := (List.zipWith (· * ·) a b).sum

/-- `np.linalg.norm v` = `√(v·v)`. -/
noncomputable def vnorm (v : List ℝ) : ℝ := Real.sqrt (dotp v v)

/-- `q_norm = np.linalg.norm(q) or 1e-12` (numpy float `0.0` is falsy). -/
noncomputable def qnormGuard (q : List ℝ) : ℝ :=
  if vnorm q = 0 then eps else vnorm q

/-- The per-row cosine score of `VectorStore.search`:
`scores = (mat @ q) / np.where(denom == 0, 1e-12, denom)` with
`denom = mat_norms * q_norm`. -/
noncomputable def score (q v : List ℝ) : ℝ :=
  dotp v q / (if vnorm v * qnormGuard q = 0 then eps else vnorm v * qnormGuard q)

/-- Descending-by-score ordering used to model `np.argsort(scores)[::-1]`. -/
def scoreGE (a b : ℝ × VectorRecord) : Prop := b.1 ≤ a.1

noncomputable instance : DecidableRel scoreGE :=
  fun a b => inferInstanceAs (Decidable (b.1 ≤ a.1))

instance : IsTotal (ℝ × VectorRecord) scoreGE := ⟨fun a b => le_total b.1 a.1⟩

instance : IsTrans (ℝ × VectorRecord) scoreGE :=
  ⟨fun _ _ _ h₁ h₂ => le_trans h₂ h₁⟩

/-- `VectorStore.search`: an empty store returns `[]`; otherwise every
stored row is scored against the query, the rows are ordered by descending
score (`np.argsort(scores)[::-1]`) and the first `top_k` are returned.
NumPy's tie order among equal scores is not reproduced (no claim depends
on it). -/
noncomputable def VectorStore.search (db : List VectorRecord) (q : List ℝ)
    (topK : Nat) : List (ℝ × VectorRecord) :=
  if db.isEmpty then []
  else ((db.map fun r => (score q r.embedding, r)).insertionSort scoreGE).take topK

/- ------------------------------------------------------------------ -/
/- llm_client.LLMClient                                                -/
/- ------------------------------------------------------------------ -/

/-- `EMBED_DIM = int(os.environ.get("EMBED_DIM", 3072))` at its default. -/
def EMBED_DIM : Nat := 3072

/-- `CHUNK_SIZE = int(os.environ.get("INDEXER_CHUNK_SIZE", 1200))`. -/
def CHUNK_SIZE : Nat := 1200

/-- `CHUNK_OVERLAP = int(os.environ.get("INDEXER_CHUNK_OVERLAP", 200))`. -/
def CHUNK_OVERLAP : Nat := 200

/-- The external collaborators of the engine, made explicit: the
filesystem (`fs path = none` means `os.path.exists` is false), the text
extraction result for an existing file (`extract_text_for_path` with all
its exceptions already collapsed to `""`), hashlib's SHA-256 as hex string
and as raw digest bytes, the Gemini embedding endpoint
(`genaiEmbed text = none` models an exception or an absent embedding
field), numpy's `RandomState(seed).rand(d)`, and the wall clock. -/
structure Env where
  fs : String → Option (List Char)
  extractText : String → List Char
  sha256hex : List Char → String
  sha256digest : List Char → List Nat
  genaiAvailable : Bool
  genaiEmbed : List Char → Option (List ℝ)
  rand : Nat → Nat → List ℝ
  now : ℝ

/-- `int.from_bytes(bs, "big")`. -/
def intFromBytesBE (bs : List Nat) : Nat := bs.foldl (fun a b => a * 256 + b) 0

/-- The fallback seed of `LLMClient._get_embedding`:
`int.from_bytes(hashlib.sha256(text).digest()[:8], "big") % 2**32`. -/
def seedOf (digest : List Nat) : Nat := intFromBytesBE (digest.take 8) % 2 ^ 32

/-- Pad (`np.pad(…, mode="wrap")`, i.e. cyclic repetition) or truncate a
provider embedding to `EMBED_DIM` (`LLMClient._get_embedding`). -/
def padTrunc (l : List ℝ) : List ℝ :=
  if l.length = EMBED_DIM then l
  else if l.length < EMBED_DIM then
    (List.range EMBED_DIM).map fun i => l.getD (i % l.length) 0
  else l.take EMBED_DIM

/-- `LLMClient._get_embedding`: empty text gives the zero vector; with the
genai backend a usable (truthy) response is padded/truncated to
`EMBED_DIM`; any failure — and the stub backend — falls back to the
deterministic pseudo-random vector seeded from the SHA-256 of the text. -/
def LLMClient.getEmbedding (env : Env) (text : List Char) : List ℝ :=
  if text = [] then List.replicate EMBED_DIM 0
  else
    match (if env.genaiAvailable then env.genaiEmbed text else none) with
    | some [] => env.rand (seedOf (env.sha256digest text)) EMBED_DIM
    | some (x :: xs) => padTrunc (x :: xs)
    | none => env.rand (seedOf (env.sha256digest text)) EMBED_DIM

/- ------------------------------------------------------------------ -/
/- indexer.Indexer                                                     -/
/- ------------------------------------------------------------------ -/

/-- The reason strings returned by `Indexer.process_path`. -/
inductive Reason
  | missing
  | noText
  | indexed
  | upsertError
deriving DecidableEq

/-- A row of the `events` table (`Indexer._ensure_events_table`). -/
structure EventRow where
  id : Nat
  eventType : String
  path : String
  timestamp : Option ℝ
  processed : Bool

/-- `Indexer.mark_event_processed`:
`UPDATE events SET processed=1 WHERE id=?`. -/
def markEventProcessed (eid : Nat) (events : List EventRow) : List EventRow :=
  events.map fun e => if e.id = eid then { e with processed := true } else e

/-- The chunk list `chunk_text(text, CHUNK_SIZE, CHUNK_OVERLAP)` computed
inside `Indexer.process_path`.  `getD []` is safe: the fuel provably
suffices because the step `CHUNK_SIZE - CHUNK_OVERLAP = 1000` is positive
(`chunk_text_eq_offsets`). -/
def Indexer.chunksFor (text : List Char) : List (List Char) :=
  (chunk_text text CHUNK_SIZE CHUNK_OVERLAP).getD []

/-- `if not chunks: chunks = [text[:CHUNK_SIZE]]` in
`Indexer.process_path`. -/
def Indexer.chunksWithFallback (text : List Char) : List (List Char) :=
  if Indexer.chunksFor text = [] then [text.take CHUNK_SIZE]
  else Indexer.chunksFor text

/-- Column sums of a stack of equal-length vectors (`np.vstack` then the
sum implicit in `np.mean(…, axis=0)`). -/
def sumVecs : List (List ℝ) → List ℝ
  | [] => []
  | [v] => v
  | v :: rest => List.zipWith (· + ·) v (sumVecs rest)

/-- `file_vec = np.mean(np.vstack(embeddings), axis=0)` guarded by the
indexer's `try/except`: `np.vstack` raises on an empty or ragged stack, in
which case the code falls back to `np.zeros(EMBED_DIM)`. -/
noncomputable def aggregate (embs : List (List ℝ)) : List ℝ :=
  if embs ≠ [] ∧ embs.all (fun v => v.length == (embs.headD []).length) then
    (sumVecs embs).map (· / (embs.length : ℝ))
  else List.replicate EMBED_DIM 0

/-- `Indexer.process_path`: missing path → `(False, "missing")`; empty
extraction → `(False, "no_text")`; otherwise hash, chunk, embed each chunk,
aggregate, build the 800-character summary, coerce the event timestamp
(`ts or time.time()`), and upsert keyed by path (an upsert exception gives
`(False, "upsert_error")` and leaves the store unchanged). -/
noncomputable def Indexer.processPath (env : Env) (vs : List VectorRecord)
    (path : String) (ts? : Option ℝ) : (Bool × Reason) × List VectorRecord :=
  match env.fs path with
  | none => ((false, .missing), vs)
  | some _ =>
    let text := env.extractText path
    if text = [] then ((false, .noText), vs)
    else
      let sha := env.sha256hex text
      let chunks := Indexer.chunksWithFallback text
      let fileVec := aggregate (chunks.map (LLMClient.getEmbedding env))
      let summary := text.take 800 ++ (if 800 < text.length then ['.', '.', '.'] else [])
      match VectorStore.upsert env.now vs none (some path) (some summary) none
          (some fileVec) (some (tsCoerce ts? env.now)) (some sha) (some "file") with
      | .ok vs' => ((true, .indexed), vs')
      | .error _ => ((false, .upsertError), vs)

/-- `Indexer.process_event_row`: process the path, then mark the event
processed regardless of the outcome. -/
noncomputable def Indexer.processEventRow (env : Env) (vs : List VectorRecord)
    (events : List EventRow) (row : EventRow) :
    (Bool × Reason) × List VectorRecord × List EventRow :=
  let res := Indexer.processPath env vs row.path row.timestamp
  (res.1, res.2, markEventProcessed row.id events)

/-- A concrete environment used by the evaluation witnesses: no file
exists, the provider is unreachable, the hash of a text is its length and
`rand s d` is the constant vector `s` of length `d`. -/
noncomputable def testEnv : Env where
  fs := fun _ => none
  extractText := fun _ => []
  sha256hex := fun _ => ""
  sha256digest := fun t => [t.length]
  genaiAvailable := false
  genaiEmbed := fun _ => none
  rand := fun s d => List.replicate d (s : ℝ)
  now := 1

theorem offsetsFrom_pos {n s1 i : Nat} (h : i < n) :
    offsetsFrom n s1 i = i :: offsetsFrom n s1 (i + s1 + 1) := by
  rw [offsetsFrom]
  simp [h]

theorem offsetsFrom_stop {n s1 i : Nat} (h : ¬ i < n) :
    offsetsFrom n s1 i = [] := by
  rw [offsetsFrom]
  simp [h]

theorem pyIndex_natCast (n i : Nat) : pyIndex n (i : Int) = min i n := by
  unfold pyIndex
  split <;> omega

/-- For a nonnegative start the Python slice `text[i:i+size]` is
`(drop i).take size`. -/
theorem pySlice_natCast (cs : List Char) (i size : Nat) :
    pySlice cs (i : Int) ((i : Int) + (size : Int)) = (cs.drop i).take size := by
  unfold pySlice
  rw [show (i : Int) + (size : Int) = ((i + size : Nat) : Int) by push_cast; ring]
  rw [pyIndex_natCast, pyIndex_natCast]
  rcases le_or_lt i cs.length with h | h
  · rw [min_eq_left h, List.take_eq_take, List.length_drop]
    omega
  · rw [min_eq_right h.le, List.drop_length, List.drop_eq_nil_of_le h.le]
    simp

/-- With a nonpositive step and nonempty text, the loop of `chunk_text`
runs forever: no amount of fuel reaches the exit condition. -/
theorem chunkLoop_stuck (cs : List Char) (size : Nat) (step : Int)
    (hstep : step ≤ 0) (hcs : cs ≠ []) :
    ∀ fuel (i : Int), i ≤ 0 → ∀ acc, chunkLoop cs size step fuel i acc = none := by
  have hn : (0 : Int) < (cs.length : Int) := by
    exact_mod_cast List.length_pos.mpr hcs
  intro fuel
  induction fuel with
  | zero =>
      intro i hi acc
      simp only [chunkLoop]
      rw [if_pos (by omega)]
  | succ f ih =>
      intro i hi acc
      simp only [chunkLoop]
      rw [if_pos (by omega)]
      exact ih (i + step) (by omega) _

/-- With the positive step `s1 + 1` and enough fuel, the loop of
`chunk_text` returns exactly the slices at the offsets `offsetsFrom`. -/
theorem chunkLoop_complete (cs : List Char) (size s1 : Nat) :
    ∀ fuel (i : Nat) (acc : List (List Char)), cs.length ≤ i + fuel →
      chunkLoop cs size ((s1 : Int) + 1) fuel (i : Int) acc
        = some (acc.reverse ++
            (offsetsFrom cs.length s1 i).map fun o => (cs.drop o).take size) := by
  intro fuel
  induction fuel with
  | zero =>
      intro i acc hle
      simp only [chunkLoop]
      rw [if_neg (by omega), offsetsFrom_stop (by omega)]
      simp
  | succ f ih =>
      intro i acc hle
      simp only [chunkLoop]
      by_cases h : i < cs.length
      · rw [if_pos (by exact_mod_cast h)]
        rw [show (i : Int) + ((s1 : Int) + 1) = ((i + s1 + 1 : Nat) : Int) by push_cast; ring]
        rw [ih (i + s1 + 1) _ (by omega)]
        rw [offsetsFrom_pos h, pySlice_natCast]
        simp
      · rw [if_neg (by exact_mod_cast h), offsetsFrom_stop h]
        simp

/-- `chunk_text` with `overlap < size` terminates and emits exactly the
slices `text[o : o+size]` at offsets `0, s, 2*s, …` (`s = size - overlap`). -/
theorem chunk_text_eq_offsets (cs : List Char) (size overlap : Nat)
    (h : overlap < size) :
    chunk_text cs size overlap
      = some ((chunkOffsets cs.length (size - overlap)).map
          fun o => (cs.drop o).take size) := by
  unfold chunk_text
  by_cases hcs : cs = []
  · subst hcs
    rw [if_pos rfl]
    simp [chunkOffsets, offsetsFrom_stop]
  · rw [if_neg hcs]
    rw [show ((size : Int) - (overlap : Int)) = ((size - overlap - 1 : Nat) : Int) + 1 by omega]
    rw [show (0 : Int) = ((0 : Nat) : Int) from rfl]
    rw [chunkLoop_complete cs size (size - overlap - 1) (cs.length + 1) 0 [] (by omega)]
    rfl

/-- `chunk_text` with `size ≤ overlap` and nonempty text never terminates
(modelled as fuel exhaustion). -/
theorem chunk_text_stuck (cs : List Char) (size overlap : Nat)
    (h : size ≤ overlap) (hcs : cs ≠ []) :
    chunk_text cs size overlap = none := by
  unfold chunk_text
  rw [if_neg hcs]
  exact chunkLoop_stuck cs size _ (by omega) hcs _ 0 (le_refl 0) []

/-- The offsets from `i` cover every position `i ≤ j < n` with a window of
width `size ≥ s1 + 1`. -/
theorem offsetsFrom_cover (n s1 size : Nat) (hsize : s1 + 1 ≤ size) :
    ∀ k i j, j - i ≤ k → i ≤ j → j < n →
      ∃ o ∈ offsetsFrom n s1 i, o ≤ j ∧ j < o + size := by
  intro k
  induction k with
  | zero =>
      intro i j hk hij hj
      have hji : i = j := by omega
      subst hji
      refine ⟨i, ?_, le_refl _, by omega⟩
      rw [offsetsFrom_pos hj]
      exact List.mem_cons_self _ _
  | succ m ih =>
      intro i j hk hij hj
      by_cases hcase : j < i + s1 + 1
      · refine ⟨i, ?_, hij, by omega⟩
        rw [offsetsFrom_pos (by omega)]
        exact List.mem_cons_self _ _
      · obtain ⟨o, ho, h1, h2⟩ := ih (i + s1 + 1) j (by omega) (by omega) hj
        refine ⟨o, ?_, h1, h2⟩
        rw [offsetsFrom_pos (by omega)]
        exact List.mem_cons_of_mem _ ho

/-- Every character position of the text lies in some chunk span. -/
theorem chunkOffsets_cover (n s size : Nat) (hs : 0 < s) (hsize : s ≤ size) :
    ∀ j < n, ∃ o ∈ chunkOffsets n s, o ≤ j ∧ j < o + size := by
  intro j hj
  unfold chunkOffsets
  exact offsetsFrom_cover n (s - 1) size (by omega) j 0 j (by omega) (by omega) hj

/-- For nonempty text and `overlap < size`, `chunk_text` terminates with a
nonempty chunk list. -/
theorem chunk_text_ne_nil (cs : List Char) (size overlap : Nat)
    (h : overlap < size) (hcs : cs ≠ []) :
    ∃ l, chunk_text cs size overlap = some l ∧ l ≠ [] := by
  refine ⟨_, chunk_text_eq_offsets cs size overlap h, ?_⟩
  have h0 : 0 < cs.length := List.length_pos.mpr hcs
  rw [chunkOffsets, offsetsFrom_pos h0]
  simp

/- ------------------------------------------------------------------ -/
/- Shared store lemmas                                                 -/
/- ------------------------------------------------------------------ -/

/-- A keyword-style `upsert` call with a non-empty path and a present
vector always succeeds and performs the insert-or-replace. -/
theorem upsert_ok (now : ℝ) (db : List VectorRecord) (p : String) (hp : p ≠ "")
    (c : List Char) (v : List ℝ) (t : Option ℝ) (sh src : String) :
    VectorStore.upsert now db none (some p) (some c) none (some v) t (some sh) (some src)
      = .ok (upsertCore ⟨p, src, c, v, tsCoerce t now, sh⟩ db) := by
  unfold VectorStore.upsert
  rw [show pyOrStr (some p) none = some p by simp [pyOrStr, hp]]
  have hc : (pyOrChars (some c) (pyOrChars none none)).getD [] = c := by
    cases c <;> simp [pyOrChars]
  simp [hc]

theorem uniquePaths_upsertCore (r : VectorRecord) (db : List VectorRecord)
    (h : uniquePaths db) : uniquePaths (upsertCore r db) := by
  unfold uniquePaths upsertCore
  rw [List.pairwise_append]
  refine ⟨h.filter _, List.pairwise_singleton _ _, ?_⟩
  intro a ha b hb
  rw [List.mem_singleton] at hb
  subst hb
  have := List.of_mem_filter ha
  simpa using this

theorem uniquePaths_deleteByPath (p : String) (db : List VectorRecord)
    (h : uniquePaths db) : uniquePaths (deleteByPath p db) :=
  h.filter _

/-- After an insert-or-replace, the rows keyed by the written path are
exactly the single new row. -/
theorem upsertCore_filter_self (r : VectorRecord) (db : List VectorRecord) :
    (upsertCore r db).filter (fun x => x.path == r.path) = [r] := by
  unfold upsertCore
  rw [List.filter_append]
  have h1 : (db.filter fun x => x.path != r.path).filter
      (fun x => x.path == r.path) = [] := by
    rw [List.filter_filter, List.filter_eq_nil_iff]
    intro a _
    simp only [Bool.and_eq_true, beq_iff_eq, bne_iff_ne, ne_eq, not_and, not_not]
    exact fun hh => hh
  rw [h1]
  simp

/- ------------------------------------------------------------------ -/
/- Claim theorems                                                      -/
/- ------------------------------------------------------------------ -/

/-- C1 (amended to non-empty paths): two successive keyword upserts for the
same non-empty path leave exactly one record keyed by that path, carrying
the second call's content, vector, sha256 (and source/timestamp); and the
at-most-one-record-per-path invariant is preserved by `upsert` and by
`delete_by_path`. -/
theorem c1_upsert_last_write_wins (p : String) (hp : p ≠ "")
    (now₁ now₂ : ℝ) (db : List VectorRecord)
    (c₁ c₂ : List Char) (v₁ v₂ : List ℝ) (t₁ t₂ : Option ℝ)
    (sh₁ sh₂ s₁ s₂ : String) :
    VectorStore.upsert now₁ db none (some p) (some c₁) none (some v₁) t₁ (some sh₁) (some s₁)
      = .ok (upsertCore ⟨p, s₁, c₁, v₁, tsCoerce t₁ now₁, sh₁⟩ db)
  ∧ VectorStore.upsert now₂ (upsertCore ⟨p, s₁, c₁, v₁, tsCoerce t₁ now₁, sh₁⟩ db)
      none (some p) (some c₂) none (some v₂) t₂ (some sh₂) (some s₂)
      = .ok (upsertCore ⟨p, s₂, c₂, v₂, tsCoerce t₂ now₂, sh₂⟩
          (upsertCore ⟨p, s₁, c₁, v₁, tsCoerce t₁ now₁, sh₁⟩ db))
  ∧ (upsertCore ⟨p, s₂, c₂, v₂, tsCoerce t₂ now₂, sh₂⟩
      (upsertCore ⟨p, s₁, c₁, v₁, tsCoerce t₁ now₁, sh₁⟩ db)).filter
        (fun x => x.path == p) = [⟨p, s₂, c₂, v₂, tsCoerce t₂ now₂, sh₂⟩]
  ∧ (upsertCore ⟨p, s₂, c₂, v₂, tsCoerce t₂ now₂, sh₂⟩
      (upsertCore ⟨p, s₁, c₁, v₁, tsCoerce t₁ now₁, sh₁⟩ db)).countP
        (fun x => x.path == p) = 1
  ∧ (∀ (r : VectorRecord) (db' : List VectorRecord),
      uniquePaths db' → uniquePaths (upsertCore r db'))
  ∧ (∀ (q : String) (db' : List VectorRecord),
      uniquePaths db' → uniquePaths (deleteByPath q db')) := by
  refine ⟨upsert_ok now₁ db p hp c₁ v₁ t₁ sh₁ s₁,
    upsert_ok now₂ _ p hp c₂ v₂ t₂ sh₂ s₂, ?_, ?_,
    fun r db' h => uniquePaths_upsertCore r db' h,
    fun q db' h => uniquePaths_deleteByPath q db' h⟩
  · exact upsertCore_filter_self ⟨p, s₂, c₂, v₂, tsCoerce t₂ now₂, sh₂⟩
      (upsertCore ⟨p, s₁, c₁, v₁, tsCoerce t₁ now₁, sh₁⟩ db)
  · rw [List.countP_eq_length_filter]
    rw [show (upsertCore ⟨p, s₂, c₂, v₂, tsCoerce t₂ now₂, sh₂⟩
        (upsertCore ⟨p, s₁, c₁, v₁, tsCoerce t₁ now₁, sh₁⟩ db)).filter
          (fun x => x.path == p) = [⟨p, s₂, c₂, v₂, tsCoerce t₂ now₂, sh₂⟩]
      from upsertCore_filter_self ⟨p, s₂, c₂, v₂, tsCoerce t₂ now₂, sh₂⟩
        (upsertCore ⟨p, s₁, c₁, v₁, tsCoerce t₁ now₁, sh₁⟩ db)]
    rfl

/-- C1 counterexample: the flexible argument handling of
`VectorStore.upsert` treats the empty path `""` as falsy, so for the path
`""` both upsert calls raise `ValueError` and afterwards the store holds
zero (not exactly one) records keyed by that path. -/
theorem c1_counterexample :
    VectorStore.upsert 1 [] none (some "") (some ['a']) none (some [(1 : ℝ)]) none (some "h1") (some "file")
      = .error ()
  ∧ VectorStore.upsert 2 [] none (some "") (some ['b']) none (some [(2 : ℝ)]) none (some "h2") (some "file")
      = .error ()
  ∧ ([] : List VectorRecord).countP (fun x => x.path == "") ≠ 1 :=
  ⟨rfl, rfl, by simp⟩

theorem c1_witness :
    ("a" : String) ≠ ""
  ∧ (upsertCore ⟨"a", "s2", ['b'], [(2 : ℝ)], tsCoerce none 2, "h2"⟩
      (upsertCore ⟨"a", "s1", ['a'], [(1 : ℝ)], tsCoerce none 1, "h1"⟩ [])).filter
        (fun x => x.path == "a") = [⟨"a", "s2", ['b'], [(2 : ℝ)], tsCoerce none 2, "h2"⟩] :=
  ⟨by decide, (c1_upsert_last_write_wins "a" (by decide) 1 2 [] ['a'] ['b']
    [(1 : ℝ)] [(2 : ℝ)] none none "h1" "h2" "s1" "s2").2.2.1⟩

/-- C2 (amended): `VectorStore.upsert` performs no dimension validation —
a vector of any length is accepted and stored verbatim for a non-empty
path; the call fails (a `ValueError`, not a DimensionMismatch) only when
the coalesced path or the vector is missing. -/
theorem c2_upsert_no_dimension_check (now : ℝ) (db : List VectorRecord)
    (p : String) (hp : p ≠ "") (c : List Char) (v : List ℝ) (t : Option ℝ)
    (sh src : String) :
    VectorStore.upsert now db none (some p) (some c) none (some v) t (some sh) (some src)
      = .ok (upsertCore ⟨p, src, c, v, tsCoerce t now, sh⟩ db)
  ∧ (∀ posP pKw cKw sKw tKw shKw srKw,
      VectorStore.upsert now db posP pKw cKw sKw none tKw shKw srKw = .error ())
  ∧ (∀ cKw sKw vKw tKw shKw srKw,
      VectorStore.upsert now db none none cKw sKw vKw tKw shKw srKw = .error ())
  ∧ (∀ cKw sKw vKw tKw shKw srKw,
      VectorStore.upsert now db none (some "") cKw sKw vKw tKw shKw srKw = .error ()) := by
  refine ⟨upsert_ok now db p hp c v t sh src, ?_, ?_, ?_⟩
  · intro posP pKw cKw sKw tKw shKw srKw
    unfold VectorStore.upsert
    cases pyOrStr pKw posP <;> rfl
  · intro cKw sKw vKw tKw shKw srKw
    rfl
  · intro cKw sKw vKw tKw shKw srKw
    rfl

/-- C2 counterexample: a length-1 vector (≠ EMBED_DIM = 3072) is accepted
and stored by `upsert` — no DimensionMismatch error, the write is not
rejected. -/
theorem c2_counterexample :
    VectorStore.upsert 7 [] none (some "a.txt") (some ['c']) none (some [(1 : ℝ)]) (some 5) (some "h") (some "file")
      = .ok [⟨"a.txt", "file", ['c'], [(1 : ℝ)], (5 : ℝ), "h"⟩]
  ∧ [(1 : ℝ)].length ≠ EMBED_DIM := by
  constructor
  · rw [upsert_ok 7 [] "a.txt" (by decide) ['c'] [(1 : ℝ)] (some 5) "h" "file"]
    norm_num [upsertCore, tsCoerce]
  · decide

theorem c2_witness :
    ("a" : String) ≠ ""
  ∧ VectorStore.upsert 3 [] none (some "a") (some ['x']) none (some []) none (some "sh") (some "src")
      = .ok (upsertCore ⟨"a", "src", ['x'], [], tsCoerce none 3, "sh"⟩ []) :=
  ⟨by decide, (c2_upsert_no_dimension_check 3 [] "a" (by decide) ['x'] [] none "sh" "src").1⟩

/-- C3: the claim (and spec) require `overlap ≥ size` to be rejected or
clamped; the source has no guard.  With `chunk_size = 1, overlap = 1` on
the two-character text `"aa"` the loop steps by `1 - 1 = 0` and never
terminates: every amount of fuel is exhausted with the loop condition
still true. -/
theorem c3_chunk_no_guard_nonterminating :
    chunk_text (List.replicate 2 'a') 1 1 = none
  ∧ ∀ fuel acc, chunkLoop (List.replicate 2 'a') 1 ((1 : Int) - (1 : Int)) fuel 0 acc = none := by
  refine ⟨chunk_text_stuck _ 1 1 (le_refl 1) (by decide), ?_⟩
  intro fuel acc
  exact chunkLoop_stuck _ 1 _ (by norm_num) (by decide) fuel 0 (le_refl 0) acc

/-- C4: with `overlap < size`, `chunk_text` emits exactly the slices
`text[o : o+size]` at offsets `0, s, 2s, …` (`s = size - overlap`) while
`o < len(text)`; those spans cover every character position; and
Scenario A: `chunk("x"*2500, 1200, 200)` gives 3 chunks starting at
offsets 0, 1000, 2000 with lengths 1200, 1200, 500 (spans `[0,1200)`,
`[1000,2200)`, `[2000,2500)`). -/
theorem c4_chunk_spec (cs : List Char) (size overlap : Nat) (h : overlap < size) :
    chunk_text cs size overlap
      = some ((chunkOffsets cs.length (size - overlap)).map fun o => (cs.drop o).take size)
  ∧ (∀ j < cs.length, ∃ o ∈ chunkOffsets cs.length (size - overlap), o ≤ j ∧ j < o + size)
  ∧ chunkOffsets 2500 1000 = [0, 1000, 2000]
  ∧ chunk_text (List.replicate 2500 'x') 1200 200
      = some [List.replicate 1200 'x', List.replicate 1200 'x', List.replicate 500 'x'] := by
  have hoffs : chunkOffsets 2500 1000 = [0, 1000, 2000] := by
    have e0 : chunkOffsets 2500 1000 = offsetsFrom 2500 999 0 := by
      norm_num [chunkOffsets]
    rw [e0]
    rw [show offsetsFrom 2500 999 0 = 0 :: offsetsFrom 2500 999 1000 by
      rw [offsetsFrom_pos (by norm_num : (0 : Nat) < 2500)]]
    rw [show offsetsFrom 2500 999 1000 = 1000 :: offsetsFrom 2500 999 2000 by
      rw [offsetsFrom_pos (by norm_num : (1000 : Nat) < 2500)]]
    rw [show offsetsFrom 2500 999 2000 = 2000 :: offsetsFrom 2500 999 3000 by
      rw [offsetsFrom_pos (by norm_num : (2000 : Nat) < 2500)]]
    rw [offsetsFrom_stop (by norm_num)]
  refine ⟨chunk_text_eq_offsets cs size overlap h,
    chunkOffsets_cover cs.length (size - overlap) size (by omega) (by omega), hoffs, ?_⟩
  have h1 := chunk_text_eq_offsets (List.replicate 2500 'x') 1200 200 (by norm_num)
  rw [List.length_replicate] at h1
  rw [h1]
  norm_num [hoffs, List.drop_replicate, List.take_replicate]

theorem c4_witness :
    1 < 2
  ∧ chunk_text ['a', 'b', 'c'] 2 1
      = some ((chunkOffsets (['a', 'b', 'c'] : List Char).length (2 - 1)).map
          fun o => (((['a', 'b', 'c'] : List Char).drop o).take 2)) :=
  ⟨by decide, (c4_chunk_spec ['a', 'b', 'c'] 2 1 (by decide)).1⟩

/-- C5: `search` on the empty store returns `[]`; on a store of `N`
records it returns at most `min N topK` results, and the scores of the
returned sequence are sorted in non-increasing order. -/
theorem c5_search_empty_bounded_sorted (q : List ℝ) (topK : Nat)
    (db : List VectorRecord) :
    VectorStore.search [] q topK = []
  ∧ (VectorStore.search db q topK).length ≤ min db.length topK
  ∧ List.Sorted (· ≥ ·) ((VectorStore.search db q topK).map Prod.fst) := by
  refine ⟨by simp [VectorStore.search], ?_, ?_⟩
  · unfold VectorStore.search
    by_cases hdb : db.isEmpty
    · simp [hdb]
    · rw [if_neg hdb, List.length_take]
      rw [(List.perm_insertionSort scoreGE _).length_eq, List.length_map]
      omega
  · unfold VectorStore.search
    by_cases hdb : db.isEmpty
    · simp [hdb]
    · rw [if_neg hdb]
      have hs := List.sorted_insertionSort scoreGE
        (db.map fun r => (score q r.embedding, r))
      have hs2 : List.Pairwise scoreGE
          (((db.map fun r => (score q r.embedding, r)).insertionSort scoreGE).take topK) :=
        List.Pairwise.sublist (List.take_sublist _ _) hs
      exact List.pairwise_map.mpr hs2

theorem dotp_self_nonneg (v : List ℝ) : 0 ≤ dotp v v := by
  unfold dotp
  rw [List.zipWith_same]
  apply List.sum_nonneg
  intro x hx
  obtain ⟨a, _, rfl⟩ := List.mem_map.mp hx
  exact mul_self_nonneg a

theorem dotp_zero_left (n : Nat) (b : List ℝ) : dotp (List.replicate n 0) b = 0 := by
  induction n generalizing b with
  | zero => simp [dotp]
  | succ m ih =>
      cases b with
      | nil => simp [dotp]
      | cons x xs =>
          rw [List.replicate_succ]
          simp only [dotp, List.zipWith_cons_cons, List.sum_cons, zero_mul, zero_add]
          exact ih xs

theorem dotp_zero_right (n : Nat) (b : List ℝ) : dotp b (List.replicate n 0) = 0 := by
  induction n generalizing b with
  | zero => simp [dotp]
  | succ m ih =>
      cases b with
      | nil => simp [dotp]
      | cons x xs =>
          rw [List.replicate_succ]
          simp only [dotp, List.zipWith_cons_cons, List.sum_cons, mul_zero, zero_add]
          exact ih xs

/-- C6: the score of `search` is `dot(q,v)` over `‖q‖·‖v‖` with the
denominator replaced by `1e-12` when it is zero; a non-zero vector has
similarity exactly `1` with itself (the real-arithmetic idealization of
"1.0 within floating-point tolerance"); the similarity of any vector with
the all-zero vector (on either side) is exactly `0` — in this total
real-number model no NaN or infinity can arise. -/
theorem c6_cosine_similarity (q v : List ℝ) :
    (dotp q q ≠ 0 → score q q = 1)
  ∧ (∀ n, score q (List.replicate n 0) = 0)
  ∧ (∀ n, score (List.replicate n 0) v = 0)
  ∧ (vnorm q ≠ 0 → vnorm v ≠ 0 →
      score q v = dotp v q / (vnorm q * vnorm v)) := by
  refine ⟨?_, ?_, ?_, ?_⟩
  · intro hd
    have hnn := dotp_self_nonneg q
    have hpos : 0 < dotp q q := lt_of_le_of_ne hnn (Ne.symm hd)
    have hv : vnorm q ≠ 0 := by
      unfold vnorm
      exact Real.sqrt_ne_zero'.mpr hpos
    have hqg : qnormGuard q = vnorm q := by
      unfold qnormGuard
      rw [if_neg hv]
    have hmul : vnorm q * vnorm q = dotp q q := by
      unfold vnorm
      exact Real.mul_self_sqrt hnn
    unfold score
    rw [hqg, hmul, if_neg hd, div_self hd]
  · intro n
    unfold score
    rw [dotp_zero_left, zero_div]
  · intro n
    unfold score
    rw [dotp_zero_right, zero_div]
  · intro hq hv
    have hqg : qnormGuard q = vnorm q := by
      unfold qnormGuard
      rw [if_neg hq]
    unfold score
    rw [hqg, if_neg (mul_ne_zero hv hq), mul_comm (vnorm v) (vnorm q)]

theorem c6_witness :
    dotp [(1 : ℝ)] [(1 : ℝ)] ≠ 0
  ∧ score [(1 : ℝ)] [(1 : ℝ)] = 1
  ∧ score [(1 : ℝ)] (List.replicate 1 0) = 0 := by
  have hd : dotp [(1 : ℝ)] [(1 : ℝ)] ≠ 0 := by
    norm_num [dotp]
  exact ⟨hd, (c6_cosine_similarity [(1 : ℝ)] [(1 : ℝ)]).1 hd,
    (c6_cosine_similarity [(1 : ℝ)] [(1 : ℝ)]).2.1 1⟩

/-- C7: for a path that does not exist on disk, `process_path` returns
`(False, "missing")` and leaves the Vector Store unchanged, and
`process_event_row` still marks the task processed. -/
theorem c7_missing_file (env : Env) (vs : List VectorRecord)
    (events : List EventRow) (row : EventRow) (h : env.fs row.path = none) :
    Indexer.processPath env vs row.path row.timestamp = ((false, .missing), vs)
  ∧ Indexer.processEventRow env vs events row
      = ((false, .missing), vs, markEventProcessed row.id events)
  ∧ ∀ e ∈ markEventProcessed row.id events, e.id = row.id → e.processed = true := by
  have h1 : Indexer.processPath env vs row.path row.timestamp = ((false, .missing), vs) := by
    unfold Indexer.processPath
    rw [h]
  refine ⟨h1, ?_, ?_⟩
  · unfold Indexer.processEventRow
    rw [h1]
  · intro e he hid
    unfold markEventProcessed at he
    obtain ⟨a, _, rfl⟩ := List.mem_map.mp he
    by_cases hb : a.id = row.id
    · simp [hb]
    · rw [if_neg hb] at hid ⊢
      exact absurd hid hb

theorem c7_witness :
    testEnv.fs "f.txt" = none
  ∧ Indexer.processPath testEnv [] "f.txt" none = ((false, Reason.missing), []) :=
  ⟨rfl, (c7_missing_file testEnv [] [] ⟨1, "created", "f.txt", none, false⟩ rfl).1⟩

/-- C8: with the Provider unreachable (`genaiAvailable = false`) the
fallback embedding of nonempty text is the pseudo-random vector drawn from
a generator seeded by (the first 8 bytes of) the SHA-256 digest of the
text; it is a pure function of that digest — equal digests give identical
vectors — and, under numpy's contract that `rand(seed, d)` has length `d`,
its dimension is exactly `EMBED_DIM`.  (Determinism of two evaluations on
the same text is structural: the embedding is a mathematical function.) -/
theorem c8_fallback_deterministic (env : Env) (t t₁ t₂ : List Char)
    (hoff : env.genaiAvailable = false) (ht : t ≠ []) :
    LLMClient.getEmbedding env t = env.rand (seedOf (env.sha256digest t)) EMBED_DIM
  ∧ (t₁ ≠ [] → t₂ ≠ [] → env.sha256digest t₁ = env.sha256digest t₂ →
      LLMClient.getEmbedding env t₁ = LLMClient.getEmbedding env t₂)
  ∧ ((∀ s d, (env.rand s d).length = d) →
      (LLMClient.getEmbedding env t).length = EMBED_DIM) := by
  have key : ∀ u : List Char, u ≠ [] →
      LLMClient.getEmbedding env u = env.rand (seedOf (env.sha256digest u)) EMBED_DIM := by
    intro u hu
    unfold LLMClient.getEmbedding
    rw [if_neg hu, hoff]
    simp
  refine ⟨key t ht, ?_, ?_⟩
  · intro h1 h2 hsha
    rw [key t₁ h1, key t₂ h2, hsha]
  · intro hrand
    rw [key t ht, hrand]

theorem c8_witness :
    testEnv.genaiAvailable = false
  ∧ (['a'] : List Char) ≠ []
  ∧ LLMClient.getEmbedding testEnv ['a']
      = testEnv.rand (seedOf (testEnv.sha256digest ['a'])) EMBED_DIM :=
  ⟨rfl, by decide,
    (c8_fallback_deterministic testEnv ['a'] [] [] rfl (by decide)).1⟩

/-- C9: the stored timestamp of an upsert whose timestamp argument is
omitted, `None`, or exactly `0.0` is the wall-clock time `now`, so (when
`now ≠ 0`) no record can ever carry timestamp `0.0`; and the event
timestamp of `process_path` undergoes the identical falsy coercion: an
event timestamp of `0.0` is indistinguishable from an absent one. -/
theorem c9_timestamp_falsy_coercion (now t : ℝ) (tk : Option ℝ)
    (db : List VectorRecord) (p : String) (hp : p ≠ "") (c : List Char)
    (v : List ℝ) (sh src : String) (env : Env) (vs : List VectorRecord)
    (path : String) :
    tsCoerce none now = now
  ∧ tsCoerce (some 0) now = now
  ∧ (t ≠ 0 → tsCoerce (some t) now = t)
  ∧ (now ≠ 0 → tsCoerce tk now ≠ 0)
  ∧ VectorStore.upsert now db none (some p) (some c) none (some v) (some 0) (some sh) (some src)
      = .ok (upsertCore ⟨p, src, c, v, now, sh⟩ db)
  ∧ VectorStore.upsert now db none (some p) (some c) none (some v) none (some sh) (some src)
      = .ok (upsertCore ⟨p, src, c, v, now, sh⟩ db)
  ∧ Indexer.processPath env vs path (some 0) = Indexer.processPath env vs path none := by
  have h2 : tsCoerce (some (0 : ℝ)) now = now := by
    simp [tsCoerce]
  refine ⟨rfl, h2, ?_, ?_, ?_, ?_, ?_⟩
  · intro ht
    simp [tsCoerce, ht]
  · intro hn
    rcases tk with _ | t'
    · exact hn
    · by_cases h0 : t' = 0
      · simpa [tsCoerce, h0] using hn
      · simp [tsCoerce, h0]
  · rw [upsert_ok now db p hp c v (some 0) sh src, h2]
  · rw [upsert_ok now db p hp c v none sh src]
    rfl
  · unfold Indexer.processPath
    rw [show tsCoerce (some 0) env.now = tsCoerce none env.now by simp [tsCoerce]]

theorem c9_witness :
    ("a" : String) ≠ "" ∧ tsCoerce none (1 : ℝ) = 1 :=
  ⟨by decide, (c9_timestamp_falsy_coercion 1 2 none [] "a" (by decide) ['x'] []
    "sh" "src" testEnv [] "f").1⟩

/-- C10: with nonempty extracted text and `overlap < size`, `chunk_text`
returns a nonempty chunk list; in particular with the indexer's constants
(`CHUNK_SIZE = 1200 > CHUNK_OVERLAP = 200`) the `if not chunks` fallback
branch of `process_path` is unreachable, and the per-chunk embedding list
handed to the aggregation has nonzero length. -/
theorem c10_empty_chunks_fallback_unreachable (cs : List Char)
    (size overlap : Nat) (h : overlap < size) (hcs : cs ≠ []) :
    (∃ l, chunk_text cs size overlap = some l ∧ l ≠ [])
  ∧ Indexer.chunksFor cs ≠ []
  ∧ Indexer.chunksWithFallback cs = Indexer.chunksFor cs
  ∧ ∀ env : Env,
      ((Indexer.chunksWithFallback cs).map (LLMClient.getEmbedding env)).length ≠ 0 := by
  obtain ⟨l, hl, hlne⟩ := chunk_text_ne_nil cs CHUNK_SIZE CHUNK_OVERLAP
    (by norm_num [CHUNK_SIZE, CHUNK_OVERLAP]) hcs
  have h2 : Indexer.chunksFor cs ≠ [] := by
    unfold Indexer.chunksFor
    rw [hl]
    simpa using hlne
  have h3 : Indexer.chunksWithFallback cs = Indexer.chunksFor cs := by
    unfold Indexer.chunksWithFallback
    rw [if_neg h2]
  refine ⟨chunk_text_ne_nil cs size overlap h hcs, h2, h3, ?_⟩
  intro env
  rw [List.length_map, h3]
  intro hzero
  exact h2 (List.length_eq_zero.mp hzero)

theorem c10_witness :
    0 < 1 ∧ (['a'] : List Char) ≠ [] ∧ Indexer.chunksFor ['a'] ≠ [] :=
  ⟨by decide, by decide,
    (c10_empty_chunks_fallback_unreachable ['a'] 1 0 (by decide) (by decide)).2.1⟩
